import Mathlib

/-!
# ChessBlunders.org — verification of the engine-analysis core

Shallow embedding of the score normalization, move evaluation, blunder
classification, and engine-output parsing logic of the repository.

Conventions used throughout:
* Python `chess.Color` is `Bool` (`chess.WHITE = True`, `chess.BLACK = False`).
* A `chess.engine.PovScore` viewed from White (`score.white()`) is modelled by
  `RawScore`: either a mate count (`pov_score.mate()`, sign preserved) or a
  centipawn integer (`pov_score.score()`).  Python integers are unbounded, so
  scores are `Int`.
* Python `None` / missing dictionary keys become `Option`.
* The external engine and the chess-rules library are collaborators: their
  outputs (analysis info dictionaries, legal-move sets, parsed moves) are taken
  as inputs of the embedded functions, exactly where the source reads them.
* Python strings are modelled at the character level (`List Char`); the string
  primitives used by the source (`strip`, `split`, `split("\n")`, `startswith`,
  substring `in`, `int(...)`) are implemented structurally below with Python's
  semantics on the ASCII data the engine protocol uses.
-/

namespace ChessBlunders

/-- Python `chess.Color`: `True` = White, `False` = Black. -/
abbrev Color := Bool

/-- Python `chess.WHITE`. -/
def WHITE : Color := true

/-- Python `chess.BLACK`. -/
def BLACK : Color := false

/-- A White-perspective engine score (`score.white()` in python-chess):
either a mate count or a centipawn value. -/
inductive RawScore where
  | mate (n : Int)
  | cp (v : Int)
deriving DecidableEq, Repr

namespace App

/-!
## `src/cloud-stockfish/app.py` — `get_eval_cp` (lines 74–85)

```python
def get_eval_cp(score, turn):
    pov_score = score.white()
    if pov_score.is_mate():
        mate_in = pov_score.mate()
        return None, mate_in
    else:
        cp = pov_score.score()
        if turn == chess.BLACK:
            cp = -cp
        return cp, None
```

`LocalStockfish._get_eval` in `src/local_python/stockfish_interface.py`
(lines 82–92) is the same function verbatim.
-/

/-- Function `get_eval_cp` from `app.py`: returns the pair `(eval_cp, mate_in)`. -/
def get_eval_cp (score : RawScore) (turn : Color) : Option Int × Option Int :=
  match score with
  | .mate n => (none, some n)
  | .cp v => (if turn == BLACK then some (-v) else some v, none)

end App

namespace Walker

/-!
## `src/local_python/tests/test_engines.py` — the game-analysis pipeline

`get_eval_cp` (lines 74–97) returns a single `int`; a mate score is encoded
as a large centipawn constant:

```python
score = info.get("score")
if score is None:
    return 0
pov_score = score.white()
if pov_score.is_mate():
    mate_in = pov_score.mate()
    if mate_in > 0:
        cp = 100000 - (mate_in * 100)
    else:
        cp = -100000 - (mate_in * 100)
else:
    cp = pov_score.score()
if turn == chess.BLACK:
    cp = -cp
return cp
```
-/

/-- Constant `BLUNDER_THRESHOLD_CP` from `test_engines.py` line 26. -/
def BLUNDER_THRESHOLD_CP : Int := 100

/-- Function `get_eval_cp` from `test_engines.py`: the `score` argument models
`info.get("score")` (absent key = `none`). -/
def get_eval_cp (score : Option RawScore) (turn : Color) : Int :=
  match score with
  | none => 0
  | some s =>
    let cp : Int :=
      match s with
      | .mate n => if n > 0 then 100000 - n * 100 else -100000 - n * 100
      | .cp v => v
    if turn == BLACK then -cp else cp

/-- One entry of the `engine.analyse` result list: the `"pv"` value (a list of
moves in UCI form; the absent-or-empty key check `"pv" not in info or not
info["pv"]` collapses to `pv = []`) and the `"score"` value. -/
structure InfoEntry where
  pv : List String
  score : Option RawScore
deriving DecidableEq, Repr

/-- One element of the list built by `analyze_position` (lines 119–130):
`{"move_uci": ..., "eval_cp": ...}` (`move_san` is rendered by the rules
collaborator and carries no further information). -/
structure TopMove where
  move_uci : String
  eval_cp : Int
deriving DecidableEq, Repr

/-- The result-building loop of `analyze_position` (lines 119–132): for each
info entry with a nonempty pv, keep the pv's first move and the normalized
eval. -/
def analyze_position (infos : List InfoEntry) (turn : Color) : List TopMove :=
  infos.filterMap fun info =>
    match info.pv with
    | [] => none
    | m :: _ => some ⟨m, get_eval_cp info.score turn⟩

/-- Record `MoveAnalysis` from `test_engines.py` (lines 31–47), restricted to the
fields the analysis algorithm computes (`move_number`, `side` and the SAN
renderings are bookkeeping delegated to the rules collaborator). -/
structure MoveAnalysisR where
  ply : Nat
  fen_before : String
  played_move_uci : String
  best_move_uci : String
  eval_before_cp : Int
  eval_after_cp : Int
  drop_cp : Int
  is_blunder : Bool
  acceptable_moves : List TopMove
deriving DecidableEq, Repr

/-- Record `BlunderPuzzle` from `test_engines.py` (lines 49–62), restricted the same
way. -/
structure BlunderPuzzleR where
  fen : String
  played_move_uci : String
  correct_move_uci : String
  eval_drop_cp : Int
  acceptable_moves : List TopMove
deriving DecidableEq, Repr

/-- The per-ply body of `analyze_game` (lines 174–233) for a ply of the tracked
side.  `top_infos` models the multipv `engine.analyse` result on the position
before the move; `post_score` models `post_analysis.get("score")` on the
position after the played move (whose side to move is `!turn`).  Returns the
emitted `MoveAnalysis` (if any) and the emitted `BlunderPuzzle` (if any). -/
def walker_step (fen_before : String) (ply : Nat) (move_uci : String)
    (turn : Color) (top_infos : List InfoEntry) (post_score : Option RawScore) :
    Option MoveAnalysisR × Option BlunderPuzzleR :=
  let top_moves := analyze_position top_infos turn
  match top_moves with
  | [] => (none, none)
  | best :: _ =>
    let best_eval := best.eval_cp
    let played_eval := - get_eval_cp post_score (!turn)
    let drop_cp := best_eval - played_eval
    let is_blunder : Bool := decide (drop_cp ≥ BLUNDER_THRESHOLD_CP)
    let acceptable := top_moves.filter
      (fun m => decide (best_eval - m.eval_cp < BLUNDER_THRESHOLD_CP))
    let analysis : MoveAnalysisR :=
      ⟨ply, fen_before, move_uci, best.move_uci, best_eval, played_eval,
        drop_cp, is_blunder, acceptable⟩
    let puzzle : Option BlunderPuzzleR :=
      if is_blunder then
        some ⟨fen_before, move_uci, best.move_uci, drop_cp, acceptable⟩
      else none
    (some analysis, puzzle)

end Walker

/-!
## Python string primitives (character-level)

`src/cloud-stockfish/lambda_handler.py` manipulates raw protocol text with
`str.strip()`, `str.split("\n")`, `str.split()`, `str.startswith`, substring
`in`, and `int(...)`.  These are modelled structurally over `List Char` with
Python's semantics (for `int(...)`: an optional minus sign followed by at
least one decimal digit, which is the shape of every numeric token the
protocol produces). -/

/-- A Python string, at character level. -/
abbrev Tok := List Char

/-- Whether `pat` is a prefix of `s` (`str.startswith`). -/
def prefChars : Tok → Tok → Bool
  | [], _ => true
  | _ :: _, [] => false
  | a :: as, b :: bs => a == b && prefChars as bs

/-- Whether `pat` occurs as a contiguous substring of `s` (Python `pat in s`). -/
def infChars (pat : Tok) : Tok → Bool
  | [] => pat.isEmpty
  | b :: bs => prefChars pat (b :: bs) || infChars pat bs

/-- Python `s.strip()`: drop whitespace from both ends. -/
def pyStrip (s : Tok) : Tok :=
  ((s.dropWhile Char.isWhitespace).reverse.dropWhile Char.isWhitespace).reverse

/-- Python `s.split(sep)` for a one-character separator: keeps empty pieces,
yields exactly one more piece than there are separators. -/
def splitOnChar (c : Char) : Tok → List Tok
  | [] => [[]]
  | a :: rest =>
    if a == c then [] :: splitOnChar c rest
    else
      match splitOnChar c rest with
      | h :: t => (a :: h) :: t
      | [] => [[a]]

/-- Helper for `pyWords`: accumulate the current word (reversed). -/
def pyWordsAux : Tok → Tok → List Tok
  | [], acc => if acc.isEmpty then [] else [acc.reverse]
  | c :: rest, acc =>
    if c.isWhitespace then
      if acc.isEmpty then pyWordsAux rest []
      else acc.reverse :: pyWordsAux rest []
    else pyWordsAux rest (c :: acc)

/-- Python `s.split()` (no argument): split on whitespace runs, no empty
pieces. -/
def pyWords (s : Tok) : List Tok := pyWordsAux s []

/-- Digit-string to `Nat`; `none` if empty or any non-digit. -/
def digitsToNat : Tok → Nat → Option Nat
  | [], acc => some acc
  | c :: rest, acc =>
    if c.isDigit then digitsToNat rest (acc * 10 + (c.toNat - '0'.toNat))
    else none

/-- Python `int(tok)` on a whitespace-free token: optional `-` sign followed
by at least one decimal digit; raises (`none`) otherwise. -/
def pyInt : Tok → Option Int
  | [] => none
  | '-' :: rest =>
    match rest with
    | [] => none
    | _ => (digitsToNat rest 0).map fun n => -(n : Int)
  | s => (digitsToNat s 0).map fun n => (n : Int)

namespace Lambda

/-!
## `src/cloud-stockfish/lambda_handler.py` — `parse_stockfish_output`
(lines 77–161) and `handler` (lines 164–211)
-/

/-- The `score` dictionary of a parsed line: `{"mate": n}` or `{"cp": n}`. -/
inductive ScoreJson where
  | mate (n : Int)
  | cp (n : Int)
deriving DecidableEq, Repr

/-- One element of `result["lines"]` (lines 130–135). -/
structure LineData where
  depth : Int
  score : ScoreJson
  pv : List Tok
  multipv : Int
deriving DecidableEq, Repr

/-- The index-and-parse body of the `try:` block (lines 110–135), taking the
whitespace-split token list; any lookup or `int(...)` failure (`IndexError` /
`ValueError`) yields `none` (the `except ...: continue`). -/
def parse_info_payload (parts : List Tok) : Option LineData := do
      let di ← parts.findIdx? (· == "depth".data)
      let si ← parts.findIdx? (· == "score".data)
      let pvi ← parts.findIdx? (· == "pv".data)
      let depth_idx := di + 1
      let score_idx := si + 1
      let pv_idx := pvi + 1
      let dtok ← parts[depth_idx]?
      let depth_val ← pyInt dtok
      let score_type ← parts[score_idx]?
      let stok ← parts[score_idx + 1]?
      let score_value ← pyInt stok
      let pv := parts.drop pv_idx
      let pv_num ←
        if parts.contains "multipv".data then do
          let mi ← parts.findIdx? (· == "multipv".data)
          let mtok ← parts[mi + 1]?
          pyInt mtok
        else pure (1 : Int)
      let score := if score_type == "mate".data then ScoreJson.mate score_value
        else ScoreJson.cp score_value
      pure { depth := depth_val, score := score, pv := pv, multipv := pv_num }

/-- The per-line recognition of an analysis record (lines 92–135 of
`parse_stockfish_output`): `none` models both the explicit `continue`s and
the `except (ValueError, IndexError): continue`. -/
def parse_info_line (line : Tok) : Option LineData :=
  if !prefChars "info".data line then none
  else if !infChars " pv ".data line then none
  else if infChars "upperbound".data line || infChars "lowerbound".data line then none
  else
    let parts := pyWords line
    if !(parts.contains "depth".data) || !(parts.contains "score".data)
        || !(parts.contains "pv".data) then none
    else parse_info_payload parts

/-- The per-rank deduplication (lines 137–147): keep only the deepest record
for each multipv rank; an existing record is replaced exactly when the new
depth is strictly greater (`list.remove` drops the first equal element, as
`List.erase` does). -/
def insert_line (lines : List LineData) (ld : LineData) : List LineData :=
  match lines.find? (fun item => item.multipv == ld.multipv) with
  | some existing =>
    if ld.depth > existing.depth then (lines.erase existing) ++ [ld]
    else lines
  | none => lines ++ [ld]

/-- Parser state: `result["lines"]` and the `bestmove` variable. -/
abbrev ParseState := List LineData × Option Tok

/-- The body of the `for line in lines_raw` loop (lines 83–150). -/
def parse_step (st : ParseState) (line : Tok) : ParseState :=
  if prefChars "bestmove".data line then
    match (pyWords line)[1]? with
    | some bm => (st.1, some bm)
    | none => st
  else
    match parse_info_line line with
    | some ld => (insert_line st.1 ld, st.2)
    | none => st

/-- Fold the loop over an explicit list of raw lines. -/
def fold_lines (lines : List Tok) : ParseState :=
  lines.foldl parse_step ([], none)

/-- Python `output.strip().split("\n")` followed by the loop. -/
def parse_fold (output : Tok) : ParseState :=
  fold_lines (splitOnChar '\n' (pyStrip output))

/-- The rank ordering used by `result["lines"].sort(key=lambda x: x["multipv"])`. -/
def rankLE (a b : LineData) : Prop := a.multipv ≤ b.multipv

instance : DecidableRel rankLE := fun a b => Int.decLe a.multipv b.multipv

instance : IsTotal LineData rankLE := ⟨fun a b => Int.le_total a.multipv b.multipv⟩

instance : IsTrans LineData rankLE := ⟨fun _ _ _ h h' => le_trans h h'⟩

/-- Model of `result["lines"].sort(key=lambda x: x["multipv"])` (line 153): Python's
sort is stable and ascending on the key; `List.insertionSort` with `rankLE`
is the same stable sort. -/
def sortLines (ls : List LineData) : List LineData := List.insertionSort rankLE ls

/-- The final dictionary returned by `parse_stockfish_output`. -/
structure ParseResult where
  lines : List LineData
  bestmove : Option Tok
deriving DecidableEq, Repr

/-- Function `parse_stockfish_output` (lines 77–161).  The `.error` case models the
uncaught `IndexError` at line 159 (`result["lines"][0]["pv"][0]`) when the
lowest-ranked kept record has an empty pv. -/
def parse_stockfish_output (output : Tok) : Except String ParseResult :=
  match (parse_fold output).2 with
  | some b => .ok ⟨sortLines (parse_fold output).1, some b⟩
  | none =>
    match sortLines (parse_fold output).1 with
    | [] => .ok ⟨sortLines (parse_fold output).1, none⟩
    | first :: _ =>
      match first.pv[0]? with
      | some m => .ok ⟨sortLines (parse_fold output).1, some m⟩
      | none => .error "IndexError"

/-- Plain `Except.isOk`, spelled out so results can be inspected by `decide`. -/
def isOkE : Except String ParseResult → Bool
  | .ok _ => true
  | .error _ => false

/-- The record currently kept for rank `r` (the `next(...)` lookup of
line 138). -/
def keptAt (ls : List LineData) (r : Int) : Option LineData :=
  ls.find? (fun item => item.multipv == r)

/-- At most one kept record per rank — the state invariant the deduplication
loop maintains. -/
def ranksOK (ls : List LineData) : Prop :=
  ls.Pairwise (fun a b => a.multipv ≠ b.multipv)

/-- The request fields the `handler` (lines 164–189) reads from the JSON
body: `body.get("fen")`, `body.get("depth", 20)`, `body.get("multipv", 1)`. -/
structure HandlerBody where
  fen : Option String
  depth : Option Int
  multipv : Option Int
deriving DecidableEq, Repr

/-- The analysis request the handler passes to `analyze_position` (line 189). -/
structure AnalyzeCall where
  fen : String
  depth : Int
  multipv : Int
deriving DecidableEq, Repr

/-- The request-validation and limit-clamping part of `handler`
(lines 173–189): missing or empty (falsy) `fen` is rejected with HTTP 400;
otherwise `depth = min(body.get("depth", 20), 25)` and
`multipv = min(body.get("multipv", 1), 5)` are used for the analysis. -/
def handler (body : HandlerBody) : Except Nat AnalyzeCall :=
  match body.fen with
  | none => .error 400
  | some f =>
    if f = "" then .error 400
    else
      let depth := min (body.depth.getD 20) 25
      let multipv := min (body.multipv.getD 1) 5
      .ok ⟨f, depth, multipv⟩

end Lambda

/-!
## Move evaluation — `/evaluate` in `app.py` (lines 143–216) and
`LocalStockfish.evaluate` in `stockfish_interface.py` (lines 129–177)

The engine (`ENGINE.analyse` / `self.engine.analyse`) and the chess-rules
library are collaborators.  Their contributions are inputs:
* `parsedMove` models `chess.Move.from_uci(request.move)` — `none` when it
  raises `ValueError` (syntactically malformed move string);
* `legalMoves` models `board.legal_moves`;
* `beforeRes` / `afterRes` model the two `analyse` calls — `none` when the
  call raises, `some answers` otherwise, each answer carrying the optional
  `"score"` entry and the optional `"pv"` entry (`none` = key absent).
Each embedded function also returns the number of `analyse` calls issued, so
"the engine is not invoked" is a provable statement.
-/

/-- One `InfoDict` of an `analyse` result, as read by the move evaluators:
`info.get("score")` and (for the before-analysis) `info["pv"]`
(`pv = none` models the `"pv" in info` test failing). -/
structure EngineAnswer where
  score : Option RawScore
  pv : Option (List String)
deriving DecidableEq, Repr

/-- The move-evaluation response common to `EvaluateResponse` (`app.py`
lines 44–53) and `MoveEvaluation` (`stockfish_interface.py` lines 42–53);
SAN renderings are delegated to the rules collaborator. -/
structure EvalResponse where
  move_uci : String
  is_legal : Bool
  eval_before_cp : Option Int
  eval_after_cp : Option Int
  eval_drop_cp : Option Int
  best_move_uci : Option String
deriving DecidableEq, Repr

namespace App

/-- The `try:` block of lines 174–185: compute `eval_before_cp` and
`best_move_uci` from the before-analysis; any exception inside (including the
`IndexError` of `before_analysis[0]["pv"][0]` on an empty pv list) resets
both to `none`. -/
def before_part (res : Option (List EngineAnswer)) (turn : Color) :
    Option Int × Option String :=
  match res with
  | none => (none, none)
  | some answers =>
    let attempt : Option (Option Int × Option String) := do
      let before_score : Option RawScore :=
        match answers with
        | [] => none
        | a :: _ => a.score
      let best_move : Option String ←
        match answers with
        | [] => pure none
        | a :: _ =>
          match a.pv with
          | none => pure none
          | some pvs =>
            match pvs with
            | [] => none
            | m :: _ => pure (some m)
      let eval_before : Option Int :=
        match before_score with
        | some s => (get_eval_cp s turn).1
        | none => none
      pure (eval_before, best_move)
    match attempt with
    | some r => r
    | none => (none, none)

/-- The `try:` block of lines 190–199: `eval_after_cp` from the
after-analysis, evaluated for the side to move after the push (`turnAfter`)
and then negated; any exception resets it to `none`. -/
def after_part (res : Option (List EngineAnswer)) (turnAfter : Color) : Option Int :=
  match res with
  | none => none
  | some answers =>
    let after_score : Option RawScore :=
      match answers with
      | [] => none
      | a :: _ => a.score
    let e : Option Int :=
      match after_score with
      | some s => (get_eval_cp s turnAfter).1
      | none => none
    e.map fun v => -v

/-- Function `evaluate_move` (`app.py` lines 143–216).  `Except Nat` carries the HTTP
error status (`503` engine missing, `400` invalid FEN / invalid move format);
the `Nat` in the pair counts `ENGINE.analyse` invocations.  `turn` is the
side to move in the request position. -/
def evaluate_move (engineReady : Bool) (fenOk : Bool)
    (parsedMove : Option String) (legalMoves : List String) (turn : Color)
    (beforeRes afterRes : Option (List EngineAnswer)) (moveStr : String) :
    Except Nat EvalResponse × Nat :=
  if !engineReady then (.error 503, 0)
  else if !fenOk then (.error 400, 0)
  else
    match parsedMove with
    | none => (.error 400, 0)
    | some mv =>
      if !(legalMoves.contains mv) then
        (.ok ⟨moveStr, false, none, none, none, none⟩, 0)
      else
        let bp := before_part beforeRes turn
        let eval_before_cp := bp.1
        let best_move_uci := bp.2
        let eval_after_cp := after_part afterRes (!turn)
        let eval_drop_cp : Option Int :=
          match eval_before_cp, eval_after_cp with
          | some b, some a => some (b - a)
          | _, _ => none
        (.ok ⟨moveStr, true, eval_before_cp, eval_after_cp, eval_drop_cp,
          best_move_uci⟩, 2)

end App

namespace LocalSF

/-- Expression `before[0]["pv"][0] if before and "pv" in before[0] else None`
(`stockfish_interface.py` line 146) — with no surrounding `try`, an empty pv
list raises `IndexError` out of `evaluate`. -/
def best_move_of (answers : List EngineAnswer) : Except String (Option String) :=
  match answers with
  | [] => .ok none
  | a :: _ =>
    match a.pv with
    | none => .ok none
    | some [] => .error "IndexError"
    | some (m :: _) => .ok (some m)

/-- Method `LocalStockfish.evaluate` (lines 129–177).  Unlike the REST handler, a
malformed move string is caught (`except ValueError`) and reported as
`is_legal=False`, while engine/errors in the analysis blocks propagate
(`.error`).  The `Nat` counts `self.engine.analyse` invocations. -/
def evaluate (parsedMove : Option String) (legalMoves : List String)
    (turn : Color) (beforeRes afterRes : Option (List EngineAnswer))
    (moveStr : String) : Except String EvalResponse × Nat :=
  match parsedMove with
  | none => (.ok ⟨moveStr, false, none, none, none, none⟩, 0)
  | some mv =>
    if !(legalMoves.contains mv) then
      (.ok ⟨moveStr, false, none, none, none, none⟩, 0)
    else
      match beforeRes with
      | none => (.error "engine error", 1)
      | some answers =>
        match best_move_of answers with
        | .error e => (.error e, 1)
        | .ok best_move_uci =>
          let before_score : Option RawScore :=
            match answers with
            | [] => none
            | a :: _ => a.score
          let eval_before_cp : Option Int :=
            match before_score with
            | some s => (App.get_eval_cp s turn).1
            | none => none
          match afterRes with
          | none => (.error "engine error", 2)
          | some answers2 =>
            let after_score : Option RawScore :=
              match answers2 with
              | [] => none
              | a :: _ => a.score
            let eval_after_cp : Option Int :=
              (match after_score with
                | some s => (App.get_eval_cp s (!turn)).1
                | none => none).map fun v => -v
            let eval_drop_cp : Option Int :=
              match eval_before_cp, eval_after_cp with
              | some b, some a => some (b - a)
              | _, _ => none
            (.ok ⟨moveStr, true, eval_before_cp, eval_after_cp, eval_drop_cp,
              best_move_uci⟩, 2)

end LocalSF

end ChessBlunders

namespace ChessBlunders

/-!
# Claims
-/

/-- C1, counterexample: the game-analysis pipeline's normalizer
(`get_eval_cp` in `test_engines.py`, lines 84–97) summarizes the raw mate
score "mate in 1 for White" as the centipawn number `99900`
(`100000 - 1 * 100`), and its Black-side normalization as `-99900`.  This
refutes the claim's sentence "No mate score is ever summarized as a
centipawn number" on the code the claim cites. -/
theorem c1_counterexample_mate_as_cp :
    Walker.get_eval_cp (some (RawScore.mate 1)) WHITE = 99900 ∧
    Walker.get_eval_cp (some (RawScore.mate 1)) BLACK = -99900 := by
  constructor <;> rfl

/-- C1 (amended): the tuple-returning normalizer of the REST API and the
unified interface (`get_eval_cp` in `app.py` / `_get_eval` in
`stockfish_interface.py`) populates exactly one of `cp`/`mate_in`: a raw
mate count passes through unchanged in sign with the centipawn field null,
and a raw centipawn score populates the centipawn field (sign-adjusted for
the requested side) with the mate field null.  The game-analysis pipeline's
`get_eval_cp` (`test_engines.py`), by contrast, summarizes a raw mate score
as the centipawn number `±100000 - 100·n`. -/
theorem c1_normalized_eval_exclusive :
    ∀ (s : RawScore) (turn : Color) (n v : Int),
    ((App.get_eval_cp s turn).1.isSome = !((App.get_eval_cp s turn).2.isSome)) ∧
    App.get_eval_cp (.mate n) turn = (none, some n) ∧
    App.get_eval_cp (.cp v) WHITE = (some v, none) ∧
    App.get_eval_cp (.cp v) BLACK = (some (-v), none) ∧
    Walker.get_eval_cp (some (.mate n)) WHITE =
      (if n > 0 then 100000 - n * 100 else -100000 - n * 100) := by
  intro s turn n v
  refine ⟨?_, rfl, rfl, rfl, rfl⟩
  cases s <;> cases turn <;> rfl

/-- C5: normalizing the same raw centipawn score for the first-moving side
(White) and for the second-moving side (Black) yields exact negations of
each other, in both the tuple-returning normalizer (`app.py`) and the
integer-valued one (`test_engines.py`). -/
theorem c5_cp_negation :
    ∀ v : Int,
    (App.get_eval_cp (.cp v) WHITE).1 = some v ∧
    (App.get_eval_cp (.cp v) BLACK).1 = some (-v) ∧
    ((App.get_eval_cp (.cp v) WHITE).1.map fun x => -x) =
      (App.get_eval_cp (.cp v) BLACK).1 ∧
    -(Walker.get_eval_cp (some (.cp v)) WHITE) =
      Walker.get_eval_cp (some (.cp v)) BLACK := by
  intro v
  exact ⟨rfl, rfl, rfl, rfl⟩

/-- C10: a syntactically malformed move string (`chess.Move.from_uci`
raises `ValueError`, modelled by `parsedMove = none`) makes the local
backend's `evaluate` return a normal `MoveEvaluation` with `is_legal=False`
and every evaluation field `None`, with zero engine calls and no exception —
while the REST handler `evaluate_move` rejects the same input with
HTTP 400. -/
theorem c10_malformed_move :
    ∀ (legal : List String) (turn : Color)
      (bRes aRes : Option (List EngineAnswer)) (moveStr : String),
    LocalSF.evaluate none legal turn bRes aRes moveStr =
      (.ok ⟨moveStr, false, none, none, none, none⟩, 0) ∧
    App.evaluate_move true true none legal turn bRes aRes moveStr =
      (.error 400, 0) := by
  intro legal turn bRes aRes moveStr
  exact ⟨rfl, rfl⟩

/-- C6: a well-formed but illegal move (parse succeeds, membership in
`board.legal_moves` fails) makes both move evaluators return
`is_legal=false` as a normal result — not an exception — with zero engine
calls, i.e. before issuing any analysis request. -/
theorem c6_illegal_move_no_engine :
    ∀ (mv : String) (legal : List String) (turn : Color)
      (bRes aRes : Option (List EngineAnswer)) (moveStr : String),
    legal.contains mv = false →
    App.evaluate_move true true (some mv) legal turn bRes aRes moveStr =
      (.ok ⟨moveStr, false, none, none, none, none⟩, 0) ∧
    LocalSF.evaluate (some mv) legal turn bRes aRes moveStr =
      (.ok ⟨moveStr, false, none, none, none, none⟩, 0) := by
  intro mv legal turn bRes aRes moveStr h
  have h' : mv ∉ legal := by simpa using h
  constructor
  · unfold App.evaluate_move
    simp [h']
  · unfold LocalSF.evaluate
    simp [h']

/-- C6 witness: the two-square pawn advance `e2e4` in a position whose only
legal moves are `e2e3` and `d2d3`. -/
theorem c6_illegal_move_no_engine_witness :
    App.evaluate_move true true (some "e2e4") ["e2e3", "d2d3"] WHITE none none "e2e4" =
      (.ok ⟨"e2e4", false, none, none, none, none⟩, 0) ∧
    LocalSF.evaluate (some "e2e4") ["e2e3", "d2d3"] WHITE none none "e2e4" =
      (.ok ⟨"e2e4", false, none, none, none, none⟩, 0) :=
  c6_illegal_move_no_engine "e2e4" ["e2e3", "d2d3"] WHITE none none "e2e4" (by decide)

/-- C8: the serverless handler clamps the analysis parameters: the depth
used is `min(requested, 25)` (default 20) and the multipv used is
`min(requested, 5)` (default 1); both stay within the caps. -/
theorem c8_handler_clamps :
    ∀ (body : Lambda.HandlerBody) (f : String),
    body.fen = some f → f ≠ "" →
    ∃ call, Lambda.handler body = .ok call ∧
      call.depth = min (body.depth.getD 20) 25 ∧
      call.multipv = min (body.multipv.getD 1) 5 ∧
      call.depth ≤ 25 ∧ call.multipv ≤ 5 ∧
      (body.depth = none → call.depth = 20) ∧
      (body.multipv = none → call.multipv = 1) := by
  intro body f hf hne
  refine ⟨⟨f, min (body.depth.getD 20) 25, min (body.multipv.getD 1) 5⟩, ?_,
    rfl, rfl, min_le_right _ _, min_le_right _ _, ?_, ?_⟩
  · unfold Lambda.handler
    rw [hf]
    simp [hne]
  · intro hd; rw [hd]; rfl
  · intro hm; rw [hm]; rfl

/-- A `Bool`-conditioned `if` producing `some`/`none` is `isSome` exactly on
the condition. -/
theorem isSome_ite_some {α : Type} (c : Bool) (x : α) :
    (if c = true then some x else none).isSome = c := by
  cases c <;> rfl

/-- Reduction of `walker_step` when the candidate list is nonempty. -/
theorem walker_step_cons (fen : String) (ply : Nat) (mv : String) (turn : Color)
    (infos : List Walker.InfoEntry) (post : Option RawScore)
    (best : Walker.TopMove) (rest : List Walker.TopMove)
    (h : Walker.analyze_position infos turn = best :: rest) :
    Walker.walker_step fen ply mv turn infos post =
      (some ⟨ply, fen, mv, best.move_uci, best.eval_cp,
          -Walker.get_eval_cp post (!turn),
          best.eval_cp - -Walker.get_eval_cp post (!turn),
          decide (best.eval_cp - -Walker.get_eval_cp post (!turn) ≥
            Walker.BLUNDER_THRESHOLD_CP),
          (best :: rest).filter
            (fun m => decide (best.eval_cp - m.eval_cp < Walker.BLUNDER_THRESHOLD_CP))⟩,
        if decide (best.eval_cp - -Walker.get_eval_cp post (!turn) ≥
            Walker.BLUNDER_THRESHOLD_CP) = true then
          some ⟨fen, mv, best.move_uci, best.eval_cp - -Walker.get_eval_cp post (!turn),
            (best :: rest).filter
              (fun m => decide (best.eval_cp - m.eval_cp < Walker.BLUNDER_THRESHOLD_CP))⟩
        else none) := by
  unfold Walker.walker_step
  rw [h]

/-- C4: in the blunder walker's per-ply judgment, the move is classified a
blunder exactly when `drop_cp ≥ BLUNDER_THRESHOLD_CP` (100);
`acceptable_moves` is exactly the candidate lines whose eval loss versus the
best line is strictly below the threshold; and a puzzle is emitted exactly
for a blunder, with `correct_move` equal to the best line's move. -/
theorem c4_blunder_classification :
    ∀ (fen : String) (ply : Nat) (mv : String) (turn : Color)
      (infos : List Walker.InfoEntry) (post : Option RawScore)
      (best : Walker.TopMove) (rest : List Walker.TopMove),
    Walker.analyze_position infos turn = best :: rest →
    ∃ a, (Walker.walker_step fen ply mv turn infos post).1 = some a ∧
      (a.is_blunder = true ↔ a.drop_cp ≥ Walker.BLUNDER_THRESHOLD_CP) ∧
      a.acceptable_moves = (best :: rest).filter
        (fun m => decide (best.eval_cp - m.eval_cp < Walker.BLUNDER_THRESHOLD_CP)) ∧
      ((Walker.walker_step fen ply mv turn infos post).2.isSome = a.is_blunder) ∧
      (∀ p, (Walker.walker_step fen ply mv turn infos post).2 = some p →
        p.correct_move_uci = best.move_uci ∧ p.eval_drop_cp = a.drop_cp ∧
        p.acceptable_moves = a.acceptable_moves ∧ a.is_blunder = true) ∧
      a.best_move_uci = best.move_uci ∧
      a.eval_before_cp = best.eval_cp ∧
      a.drop_cp = a.eval_before_cp - a.eval_after_cp := by
  intro fen ply mv turn infos post best rest h
  rw [walker_step_cons fen ply mv turn infos post best rest h]
  refine ⟨_, rfl, by exact iff_of_eq decide_eq_true_eq, rfl, isSome_ite_some _ _,
    ?_, rfl, rfl, rfl⟩
  intro p hp
  by_cases hb : (best.eval_cp - -Walker.get_eval_cp post (!turn)) ≥
      Walker.BLUNDER_THRESHOLD_CP
  · rw [decide_eq_true hb] at hp
    simp only [if_true] at hp
    obtain rfl : _ = p := Option.some.inj hp
    exact ⟨rfl, rfl, rfl, decide_eq_true hb⟩
  · rw [decide_eq_false hb] at hp
    simp at hp

/-- C4 witness: a candidate list whose best line evaluates to 150 cp while
the played move leaves −20 cp: the drop of 170 is classified a blunder and a
puzzle with the best line's move is emitted. -/
theorem c4_blunder_classification_witness :
    ∃ a, (Walker.walker_step "f" 4 "g1f3" WHITE
        [⟨["d2d4"], some (.cp 150)⟩, ⟨["e2e4"], some (.cp 120)⟩]
        (some (.cp 20))).1 = some a ∧
      (a.is_blunder = true ↔ a.drop_cp ≥ Walker.BLUNDER_THRESHOLD_CP) ∧
      a.acceptable_moves = ([⟨"d2d4", 150⟩, ⟨"e2e4", 120⟩] :
          List Walker.TopMove).filter
        (fun m => decide ((150 : Int) - m.eval_cp < Walker.BLUNDER_THRESHOLD_CP)) ∧
      ((Walker.walker_step "f" 4 "g1f3" WHITE
        [⟨["d2d4"], some (.cp 150)⟩, ⟨["e2e4"], some (.cp 120)⟩]
        (some (.cp 20))).2.isSome = a.is_blunder) ∧
      (∀ p, (Walker.walker_step "f" 4 "g1f3" WHITE
        [⟨["d2d4"], some (.cp 150)⟩, ⟨["e2e4"], some (.cp 120)⟩]
        (some (.cp 20))).2 = some p →
        p.correct_move_uci = "d2d4" ∧ p.eval_drop_cp = a.drop_cp ∧
        p.acceptable_moves = a.acceptable_moves ∧ a.is_blunder = true) ∧
      a.best_move_uci = "d2d4" ∧
      a.eval_before_cp = 150 ∧
      a.drop_cp = a.eval_before_cp - a.eval_after_cp :=
  c4_blunder_classification "f" 4 "g1f3" WHITE
    [⟨["d2d4"], some (.cp 150)⟩, ⟨["e2e4"], some (.cp 120)⟩]
    (some (.cp 20)) ⟨"d2d4", 150⟩ [⟨"e2e4", 120⟩] (by decide)

/-- C2, counterexample: in the blunder walker (`analyze_game`,
`test_engines.py` lines 180–197), a raw mate score on the eval-before side
is first encoded as the centipawn number 99900 and then participates in the
drop subtraction, producing a defined `drop_cp = 99900` — the claim says the
drop is undefined whenever either side is a mate score. -/
theorem c2_counterexample_mate_in_drop :
    (Walker.walker_step "f" 0 "e1e2" WHITE [⟨["d1d2"], some (RawScore.mate 1)⟩]
      (some (RawScore.cp 0))).1 =
      some ⟨0, "f", "e1e2", "d1d2", 99900, 0, 99900, true, [⟨"d1d2", 99900⟩]⟩ := by
  rfl

/-- C2 (amended): in the move evaluator (`evaluate_move` in `app.py`,
mirrored by `LocalStockfish.evaluate`), `eval_drop_cp` equals
`eval_before_cp - eval_after_cp` when both are populated centipawn values
and is `None` otherwise, and a raw mate score on either side normalizes to a
`None` centipawn — so a mate never participates in the drop subtraction
there.  (In the blunder-walker pipeline mate scores are instead encoded as
large centipawn constants and do participate; see the counterexample.) -/
theorem c2_drop_arithmetic :
    ∀ (ready fenOk : Bool) (pm : Option String) (legal : List String)
      (turn : Color) (bRes aRes : Option (List EngineAnswer)) (mv : String)
      (r : EvalResponse) (k : Nat),
    App.evaluate_move ready fenOk pm legal turn bRes aRes mv = (.ok r, k) →
    (r.eval_drop_cp = match r.eval_before_cp, r.eval_after_cp with
      | some b, some a => some (b - a)
      | _, _ => none) ∧
    (∀ ans tl n, bRes = some (ans :: tl) → ans.score = some (.mate n) →
      r.eval_before_cp = none ∧ r.eval_drop_cp = none) ∧
    (∀ ans tl n, aRes = some (ans :: tl) → ans.score = some (.mate n) →
      r.eval_after_cp = none ∧ r.eval_drop_cp = none) := by
  intro ready fenOk pm legal turn bRes aRes mv r k h
  cases ready with
  | false => simp [App.evaluate_move] at h
  | true =>
  cases fenOk with
  | false => simp [App.evaluate_move] at h
  | true =>
  cases pm with
  | none => simp [App.evaluate_move] at h
  | some m =>
  cases hcv : legal.contains m with
  | true =>
    have hm : m ∈ legal := by simpa using hcv
    have hred : App.evaluate_move true true (some m) legal turn bRes aRes mv =
        (.ok ⟨mv, true, (App.before_part bRes turn).1, App.after_part aRes (!turn),
          (match (App.before_part bRes turn).1, App.after_part aRes (!turn) with
            | some b, some a => some (b - a)
            | _, _ => none),
          (App.before_part bRes turn).2⟩, 2) := by
      simp [App.evaluate_move, hcv, hm]
    rw [hred] at h
    injection h with hok hk
    injection hok with hok
    subst hok
    refine ⟨rfl, ?_, ?_⟩
    · intro ans tl n hb hscore
      subst hb
      have hbefore : (App.before_part (some (ans :: tl)) turn).1 = none := by
        unfold App.before_part
        cases hpv : ans.pv with
        | none => simp [hpv, hscore, App.get_eval_cp]
        | some pvs => cases pvs <;> simp_all [App.get_eval_cp]
      constructor
      · exact hbefore
      · show (match (App.before_part (some (ans :: tl)) turn).1,
            App.after_part aRes (!turn) with
          | some b, some a => some (b - a)
          | _, _ => none) = none
        rw [hbefore]
    · intro ans tl n ha hscore
      subst ha
      have hafter : App.after_part (some (ans :: tl)) (!turn) = none := by
        unfold App.after_part
        simp [hscore, App.get_eval_cp]
      constructor
      · exact hafter
      · show (match (App.before_part bRes turn).1,
            App.after_part (some (ans :: tl)) (!turn) with
          | some b, some a => some (b - a)
          | _, _ => none) = none
        rw [hafter]
        cases (App.before_part bRes turn).1 <;> rfl
  | false =>
    have hm : m ∉ legal := by simpa using hcv
    have hred : App.evaluate_move true true (some m) legal turn bRes aRes mv =
        (.ok ⟨mv, false, none, none, none, none⟩, 0) := by
      simp [App.evaluate_move, hcv, hm]
    rw [hred] at h
    injection h with hok hk
    injection hok with hok
    subst hok
    exact ⟨rfl, fun _ _ _ _ _ => ⟨rfl, rfl⟩, fun _ _ _ _ _ => ⟨rfl, rfl⟩⟩

/-- C2 witness: with finite centipawn scores on both sides (70 cp before,
−30 cp for the opponent after, i.e. +30 for the mover), the REST evaluator
reports `eval_drop_cp = 70 - 30 = 40`; instantiating the mate clauses is
vacuous here. -/
theorem c2_drop_arithmetic_witness :
    (App.evaluate_move true true (some "e2e4") ["e2e4"] WHITE
        (some [⟨some (.cp 70), some ["d2d4"]⟩])
        (some [⟨some (.cp 30), some ["g8f6"]⟩]) "e2e4" =
      (.ok ⟨"e2e4", true, some 70, some 30, some 40, some "d2d4"⟩, 2)) ∧
    ((⟨"e2e4", true, some 70, some 30, some 40, some "d2d4"⟩ :
        EvalResponse).eval_drop_cp =
      match (some 70 : Option Int), (some 30 : Option Int) with
      | some b, some a => some (b - a)
      | _, _ => none) :=
  ⟨by rfl, (c2_drop_arithmetic true true (some "e2e4") ["e2e4"] WHITE
    (some [⟨some (.cp 70), some ["d2d4"]⟩])
    (some [⟨some (.cp 30), some ["g8f6"]⟩]) "e2e4"
    ⟨"e2e4", true, some 70, some 30, some 40, some "d2d4"⟩ 2 (by rfl)).1⟩

/-- A bound-qualified line is not recognized as an analysis record. -/
theorem parse_info_line_none_of_bound {line : Tok}
    (h : infChars "upperbound".data line = true ∨
      infChars "lowerbound".data line = true) :
    Lambda.parse_info_line line = none := by
  have hor : (infChars "upperbound".data line ||
      infChars "lowerbound".data line) = true := by
    rcases h with h | h <;> simp [h]
  unfold Lambda.parse_info_line
  cases h1 : prefChars "info".data line with
  | false => rfl
  | true =>
  cases h2 : infChars " pv ".data line with
  | false => rfl
  | true =>
    rw [hor]
    exact rfl

/-- A line missing the depth, score, or pv token is not recognized as an
analysis record. -/
theorem parse_info_line_none_of_missing {line : Tok}
    (h : "depth".data ∉ pyWords line ∨ "score".data ∉ pyWords line ∨
      "pv".data ∉ pyWords line) :
    Lambda.parse_info_line line = none := by
  have hcond : (!((pyWords line).contains "depth".data) ||
      !((pyWords line).contains "score".data) ||
      !((pyWords line).contains "pv".data)) = true := by
    rcases h with h | h | h <;> simp [h]
  unfold Lambda.parse_info_line
  cases h1 : prefChars "info".data line with
  | false => rfl
  | true =>
  cases h2 : infChars " pv ".data line with
  | false => rfl
  | true =>
  cases h3 : (infChars "upperbound".data line || infChars "lowerbound".data line) with
  | true => rfl
  | false =>
    simp only [hcond]
    exact rfl

/-- C7: the output parser produces no analysis record from a line whose
score is qualified as an upper/lower bound, and, for any non-terminal line
(not starting with `bestmove`) missing the depth, score, or pv marker
token, it leaves the whole state unchanged — ignoring the line rather than
raising (the embedded step function is total; the Python `except
(ValueError, IndexError)` is the `none` branch of `parse_info_line`). -/
theorem c7_parser_rejects_lines :
    ∀ (st : Lambda.ParseState) (line : Tok),
    ((infChars "upperbound".data line = true ∨
        infChars "lowerbound".data line = true) →
      (Lambda.parse_step st line).1 = st.1) ∧
    (prefChars "bestmove".data line = false →
      ("depth".data ∉ pyWords line ∨ "score".data ∉ pyWords line ∨
        "pv".data ∉ pyWords line) →
      Lambda.parse_step st line = st) := by
  intro st line
  constructor
  · intro h
    unfold Lambda.parse_step
    cases hb : prefChars "bestmove".data line with
    | true =>
      simp only [hb, if_true]
      cases (pyWords line)[1]? <;> rfl
    | false =>
      simp only [hb, Bool.false_eq_true, if_false]
      rw [parse_info_line_none_of_bound h]
  · intro hb hmiss
    unfold Lambda.parse_step
    simp only [hb, Bool.false_eq_true, if_false]
    rw [parse_info_line_none_of_missing hmiss]

/-- C7 witness: a bound-qualified info line and a progress (`currmove`)
line both leave the empty parser state unchanged. -/
theorem c7_parser_rejects_lines_witness :
    (Lambda.parse_step ([], none)
        "info depth 9 score cp 10 upperbound pv e2e4".data).1 = [] ∧
    Lambda.parse_step ([], none)
        "info depth 9 currmove e2e4 currmovenumber 1".data = ([], none) :=
  ⟨(c7_parser_rejects_lines ([], none)
      "info depth 9 score cp 10 upperbound pv e2e4".data).1 (Or.inl (by decide)),
    (c7_parser_rejects_lines ([], none)
      "info depth 9 currmove e2e4 currmovenumber 1".data).2 (by decide)
      (Or.inr (Or.inl (by decide)))⟩

/-- C8 witness: a request with `depth=30`, `multipv=7` is clamped to depth
25 and multipv 5. -/
theorem c8_handler_clamps_witness :
    ∃ call, Lambda.handler ⟨some "8/8/8/8/8/8/8/K6k w - - 0 1", some 30, some 7⟩ = .ok call ∧
      call.depth = min ((some (30 : Int)).getD 20) 25 ∧
      call.multipv = min ((some (7 : Int)).getD 1) 5 ∧
      call.depth ≤ 25 ∧ call.multipv ≤ 5 ∧
      ((some (30 : Int)) = none → call.depth = 20) ∧
      ((some (7 : Int)) = none → call.multipv = 1) :=
  c8_handler_clamps ⟨some "8/8/8/8/8/8/8/K6k w - - 0 1", some 30, some 7⟩
    "8/8/8/8/8/8/8/K6k w - - 0 1" rfl (by decide)

/-- Lemma: `find?` returns the unique element satisfying the predicate. -/
theorem find?_unique {α : Type} {p : α → Bool} {l : List α} {a : α}
    (ha : a ∈ l) (hpa : p a = true)
    (huniq : ∀ x ∈ l, p x = true → x = a) : l.find? p = some a := by
  induction l with
  | nil => cases ha
  | cons b bs ih =>
    by_cases hb : p b = true
    · have hba : b = a := huniq b (List.mem_cons_self b bs) hb
      subst hba
      exact List.find?_cons_of_pos _ hb
    · rw [List.find?_cons_of_neg _ hb]
      have hab : a ∈ bs := by
        rcases List.mem_cons.mp ha with rfl | h
        · exact absurd hpa hb
        · exact h
      exact ih hab fun x hx hpx => huniq x (List.mem_cons_of_mem _ hx) hpx

/-- Two entries of a duplicate-free-by-rank state with equal ranks are the
same entry. -/
theorem rank_unique {ls : List Lambda.LineData} (hOK : Lambda.ranksOK ls) :
    ∀ {a b : Lambda.LineData}, a ∈ ls → b ∈ ls → a.multipv = b.multipv → a = b := by
  induction ls with
  | nil => intro a b ha _ _; cases ha
  | cons c t ih =>
    intro a b ha hb heq
    have hhead := (List.pairwise_cons.mp hOK).1
    have htail := (List.pairwise_cons.mp hOK).2
    rcases List.mem_cons.mp ha with rfl | ha' <;> rcases List.mem_cons.mp hb with rfl | hb'
    · rfl
    · exact absurd heq (hhead b hb')
    · exact absurd heq.symm (hhead a ha')
    · exact ih htail ha' hb' heq

/-- A state with pairwise-distinct ranks has no duplicate entries. -/
theorem ranksOK_nodup {ls : List Lambda.LineData} (h : Lambda.ranksOK ls) :
    ls.Nodup :=
  h.imp fun hne heq => hne (congrArg Lambda.LineData.multipv heq)

/-- After erasing the entry found for rank `q`, no entry of rank `q` is left. -/
theorem find?_erase_none {ls : List Lambda.LineData} {q : Int}
    {ex : Lambda.LineData} (hOK : Lambda.ranksOK ls)
    (hex : ls.find? (fun item => item.multipv == q) = some ex) :
    (ls.erase ex).find? (fun item => item.multipv == q) = none := by
  rw [List.find?_eq_none]
  intro y hy hpy
  have hyl : y ∈ ls := List.mem_of_mem_erase hy
  have hexl : ex ∈ ls := List.mem_of_find?_eq_some hex
  have hpyq : y.multipv = q := by simpa using hpy
  have hexq : ex.multipv = q := by simpa using List.find?_some hex
  have hyx : y = ex := rank_unique hOK hyl hexl (by rw [hpyq, hexq])
  subst hyx
  exact (ranksOK_nodup hOK).not_mem_erase hy

/-- Reduction of `insert_line` when a record of the same rank exists. -/
theorem insert_line_found {ls : List Lambda.LineData} {ld ex : Lambda.LineData}
    (h0 : ls.find? (fun item => item.multipv == ld.multipv) = some ex) :
    Lambda.insert_line ls ld =
      if ld.depth > ex.depth then ls.erase ex ++ [ld] else ls := by
  unfold Lambda.insert_line
  rw [h0]

/-- Reduction of `insert_line` when no record of the same rank exists. -/
theorem insert_line_not_found {ls : List Lambda.LineData} {ld : Lambda.LineData}
    (h0 : ls.find? (fun item => item.multipv == ld.multipv) = none) :
    Lambda.insert_line ls ld = ls ++ [ld] := by
  unfold Lambda.insert_line
  rw [h0]

/-- The deduplication step never lowers the depth kept at any rank: the
record kept for a rank survives (possibly replaced by a strictly deeper
one). -/
theorem keptAt_insert_line {ls : List Lambda.LineData} {ld : Lambda.LineData}
    {r : Int} {rec : Lambda.LineData}
    (hOK : Lambda.ranksOK ls) (h : Lambda.keptAt ls r = some rec) :
    ∃ rec', Lambda.keptAt (Lambda.insert_line ls ld) r = some rec' ∧
      rec.depth ≤ rec'.depth := by
  unfold Lambda.keptAt at h ⊢
  cases h0 : ls.find? (fun item => item.multipv == ld.multipv) with
  | none =>
    rw [insert_line_not_found h0]
    refine ⟨rec, ?_, le_refl _⟩
    rw [List.find?_append, h]
    rfl
  | some ex =>
    rw [insert_line_found h0]
    by_cases hd : ld.depth > ex.depth
    · rw [if_pos hd]
      by_cases hr : r = ld.multipv
      · subst hr
        have hrec : rec = ex := Option.some.inj (h.symm.trans h0)
        subst hrec
        refine ⟨ld, ?_, le_of_lt hd⟩
        rw [List.find?_append, find?_erase_none hOK h0]
        rw [Option.none_or]
        exact List.find?_cons_of_pos _ (by simp)
      · have hrecmem : rec ∈ ls := List.mem_of_find?_eq_some h
        have hrecq : rec.multipv = r := by simpa using List.find?_some h
        have hexq : ex.multipv = ld.multipv := by simpa using List.find?_some h0
        have hne : rec ≠ ex := fun he => hr (by rw [← hrecq, he, hexq])
        have hrecmem' : rec ∈ ls.erase ex :=
          (List.mem_erase_of_ne hne).mpr hrecmem
        refine ⟨rec, ?_, le_refl _⟩
        apply find?_unique (List.mem_append_left _ hrecmem') (by simpa using hrecq)
        intro x hx hpx
        have hxq : x.multipv = r := by simpa using hpx
        rcases List.mem_append.mp hx with hx' | hx'
        · exact rank_unique hOK (List.mem_of_mem_erase hx') hrecmem
            (by rw [hxq, hrecq])
        · have hxld : x = ld := by simpa using hx'
          subst hxld
          exact absurd hxq.symm hr
    · rw [if_neg hd]
      exact ⟨rec, h, le_refl _⟩

/-- The deduplication step preserves the one-record-per-rank invariant. -/
theorem ranksOK_insert_line {ls : List Lambda.LineData} {ld : Lambda.LineData}
    (hOK : Lambda.ranksOK ls) : Lambda.ranksOK (Lambda.insert_line ls ld) := by
  cases h0 : ls.find? (fun item => item.multipv == ld.multipv) with
  | none =>
    rw [insert_line_not_found h0]
    rw [Lambda.ranksOK, List.pairwise_append]
    refine ⟨hOK, List.pairwise_singleton _ _, ?_⟩
    intro a ha b hb
    have hbld : b = ld := by simpa using hb
    subst hbld
    have := List.find?_eq_none.mp h0 a ha
    simpa using this
  | some ex =>
    rw [insert_line_found h0]
    by_cases hd : ld.depth > ex.depth
    · rw [if_pos hd]
      rw [Lambda.ranksOK, List.pairwise_append]
      refine ⟨List.Pairwise.sublist (List.erase_sublist _ _) hOK,
        List.pairwise_singleton _ _, ?_⟩
      intro a ha b hb
      have hbld : b = ld := by simpa using hb
      rw [hbld]
      intro heq
      have hexl : ex ∈ ls := List.mem_of_find?_eq_some h0
      have hexq : ex.multipv = ld.multipv := by simpa using List.find?_some h0
      have hax : a = ex := rank_unique hOK (List.mem_of_mem_erase ha) hexl
        (heq.trans hexq.symm)
      subst hax
      exact (ranksOK_nodup hOK).not_mem_erase ha
    · rw [if_neg hd]
      exact hOK

/-- The loop body preserves the one-record-per-rank invariant. -/
theorem ranksOK_parse_step {st : Lambda.ParseState} {line : Tok}
    (hOK : Lambda.ranksOK st.1) : Lambda.ranksOK (Lambda.parse_step st line).1 := by
  unfold Lambda.parse_step
  cases hb : prefChars "bestmove".data line with
  | true =>
    cases hw : (pyWords line)[1]? with
    | some bm => exact hOK
    | none => exact hOK
  | false =>
    cases hpl : Lambda.parse_info_line line with
    | some ld => exact ranksOK_insert_line hOK
    | none => exact hOK

/-- The loop body never lowers the depth kept at any rank. -/
theorem keptAt_parse_step {st : Lambda.ParseState} (line : Tok) {r : Int}
    {rec : Lambda.LineData} (hOK : Lambda.ranksOK st.1)
    (h : Lambda.keptAt st.1 r = some rec) :
    ∃ rec', Lambda.keptAt (Lambda.parse_step st line).1 r = some rec' ∧
      rec.depth ≤ rec'.depth := by
  unfold Lambda.parse_step
  cases hb : prefChars "bestmove".data line with
  | true =>
    cases hw : (pyWords line)[1]? with
    | some bm => exact ⟨rec, h, le_refl _⟩
    | none => exact ⟨rec, h, le_refl _⟩
  | false =>
    cases hpl : Lambda.parse_info_line line with
    | some ld => exact keptAt_insert_line hOK h
    | none => exact ⟨rec, h, le_refl _⟩

/-- Folding any further lines never lowers the depth kept at any rank. -/
theorem keptAt_fold_mono (lines : List Tok) :
    ∀ (st : Lambda.ParseState) (r : Int) (rec : Lambda.LineData),
    Lambda.ranksOK st.1 → Lambda.keptAt st.1 r = some rec →
    ∃ rec', Lambda.keptAt (lines.foldl Lambda.parse_step st).1 r = some rec' ∧
      rec.depth ≤ rec'.depth := by
  induction lines with
  | nil => intro st r rec _ h; exact ⟨rec, h, le_refl _⟩
  | cons l t ih =>
    intro st r rec hOK h
    obtain ⟨rec1, h1, hd1⟩ := keptAt_parse_step l hOK h
    obtain ⟨rec2, h2, hd2⟩ :=
      ih (Lambda.parse_step st l) r rec1 (ranksOK_parse_step hOK) h1
    exact ⟨rec2, h2, le_trans hd1 hd2⟩

/-- The parser state always satisfies the one-record-per-rank invariant. -/
theorem ranksOK_fold (lines : List Tok) :
    ∀ st : Lambda.ParseState, Lambda.ranksOK st.1 →
    Lambda.ranksOK (lines.foldl Lambda.parse_step st).1 := by
  induction lines with
  | nil => intro st h; exact h
  | cons l t ih => intro st h; exact ih _ (ranksOK_parse_step h)

/-- C3: across any run of the parsing loop, the record kept for a given rank
never has lower depth than any record previously kept at that rank: after
processing any further raw lines, the rank still holds a record, of depth at
least the old one (an existing record is replaced only by a strictly deeper
one). -/
theorem c3_kept_depth_monotone :
    ∀ (pre ext : List Tok) (r : Int) (rec : Lambda.LineData),
    Lambda.keptAt (Lambda.fold_lines pre).1 r = some rec →
    ∃ rec', Lambda.keptAt (Lambda.fold_lines (pre ++ ext)).1 r = some rec' ∧
      rec.depth ≤ rec'.depth := by
  intro pre ext r rec h
  have hOK : Lambda.ranksOK (Lambda.fold_lines pre).1 :=
    ranksOK_fold pre ([], none) List.Pairwise.nil
  rw [Lambda.fold_lines, List.foldl_append]
  exact keptAt_fold_mono ext _ r rec hOK h

/-- C3 witness: a depth-1 record for rank 1 is later superseded by a depth-3
record at the same rank, never by a shallower one. -/
theorem c3_kept_depth_monotone_witness :
    ∃ rec', Lambda.keptAt (Lambda.fold_lines
        (["info depth 1 score cp 5 pv e2e4".data] ++
          ["info depth 3 score cp 7 pv d2d4".data])).1 1 = some rec' ∧
      (⟨1, Lambda.ScoreJson.cp 5, ["e2e4".data], 1⟩ : Lambda.LineData).depth ≤
        rec'.depth :=
  c3_kept_depth_monotone ["info depth 1 score cp 5 pv e2e4".data]
    ["info depth 3 score cp 7 pv d2d4".data] 1
    ⟨1, Lambda.ScoreJson.cp 5, ["e2e4".data], 1⟩ (by decide)

/-- C9, counterexample: on the raw output consisting of the line
`info depth 1 score cp 2 pv ` (a trailing space, so the ` pv ` marker is
present but no move follows) and a filler line, the parser keeps one
analysis record and sees no `bestmove` token, yet it does not report a best
move: `result["lines"][0]["pv"][0]` raises an uncaught `IndexError`. -/
theorem c9_counterexample_empty_pv :
    Lambda.isOkE (Lambda.parse_stockfish_output
      "info depth 1 score cp 2 pv \nok".data) = false ∧
    (Lambda.parse_fold "info depth 1 score cp 2 pv \nok".data).1 ≠ [] ∧
    (Lambda.parse_fold "info depth 1 score cp 2 pv \nok".data).2 = none := by
  exact ⟨by decide, by decide, by decide⟩

/-- C9 (amended): when no terminal `bestmove` token was observed but at
least one analysis record was kept, the parser reports as best move the
first move of the principal variation of the lowest-ranked kept record —
provided that record's pv is nonempty (an empty pv raises `IndexError`
instead; see the counterexample).  When neither a `bestmove` token nor any
record was seen, the result carries no best move. -/
theorem c9_bestmove_fallback :
    ∀ (output : Tok) (first : Lambda.LineData) (rest : List Lambda.LineData)
      (m : Tok),
    ((Lambda.parse_fold output).2 = none →
      Lambda.sortLines (Lambda.parse_fold output).1 = first :: rest →
      first.pv[0]? = some m →
      Lambda.parse_stockfish_output output = .ok ⟨first :: rest, some m⟩ ∧
      ∀ rec ∈ (Lambda.parse_fold output).1, first.multipv ≤ rec.multipv) ∧
    ((Lambda.parse_fold output).1 = [] → (Lambda.parse_fold output).2 = none →
      Lambda.parse_stockfish_output output = .ok ⟨[], none⟩) := by
  intro output first rest m
  constructor
  · intro h2 hsort hpv
    constructor
    · unfold Lambda.parse_stockfish_output
      rw [h2, hsort]
      show (match first.pv[0]? with
        | some mv =>
          (Except.ok ⟨first :: rest, some mv⟩ : Except String Lambda.ParseResult)
        | none => Except.error "IndexError") =
          Except.ok ⟨first :: rest, some m⟩
      rw [hpv]
    · intro rec hrec
      have hperm := List.perm_insertionSort Lambda.rankLE (Lambda.parse_fold output).1
      have hmem : rec ∈ first :: rest := by
        rw [← hsort]
        exact hperm.mem_iff.mpr hrec
      have hsorted :=
        List.sorted_insertionSort Lambda.rankLE (Lambda.parse_fold output).1
      rw [show List.insertionSort Lambda.rankLE (Lambda.parse_fold output).1 =
        Lambda.sortLines (Lambda.parse_fold output).1 from rfl, hsort] at hsorted
      rcases List.mem_cons.mp hmem with rfl | hmem'
      · exact le_refl _
      · exact List.rel_of_sorted_cons hsorted rec hmem'
  · intro h1 h2
    unfold Lambda.parse_stockfish_output
    rw [h2, h1]
    exact rfl

/-- C9 witness: a single kept record with a nonempty pv and no `bestmove`
token — the parser reports its first pv move, and the record is of minimal
rank. -/
theorem c9_bestmove_fallback_witness :
    Lambda.parse_stockfish_output "info depth 2 score cp 5 pv e2e4 d7d5".data =
      .ok ⟨[⟨2, Lambda.ScoreJson.cp 5, ["e2e4".data, "d7d5".data], 1⟩],
        some "e2e4".data⟩ ∧
    ∀ rec ∈ (Lambda.parse_fold "info depth 2 score cp 5 pv e2e4 d7d5".data).1,
      (⟨2, Lambda.ScoreJson.cp 5, ["e2e4".data, "d7d5".data], 1⟩ :
        Lambda.LineData).multipv ≤ rec.multipv :=
  (c9_bestmove_fallback "info depth 2 score cp 5 pv e2e4 d7d5".data
    ⟨2, Lambda.ScoreJson.cp 5, ["e2e4".data, "d7d5".data], 1⟩ [] "e2e4".data).1
    (by decide) (by decide) (by decide)

end ChessBlunders
